import Mathlib

/-!
Verification of the statistics core of `src/robot/model/statistics.py`.

The Python classes are embedded as Lean structures and pure functions.
Mutation becomes explicit state passing; the suite-tree traversal driven by
the external `SuiteVisitor` becomes a recursive function on the suite tree;
machine-level details (regular expressions) are embedded as a token list
with an executable matching semantics.  External collaborators that are not
part of the source file (the suite tree, the tag-pattern matcher
`TagPatterns`, the criticality classifier, the name-normalising dictionary)
are modelled from the specification by the interface the core uses.
-/

namespace Robot

/-- A test case as consumed by the statistics core: a status string
(`"PASS"` means passed), a criticality marker (the code compares it with
the literal string `"yes"`), and a list of tag names.  Modelled from the
spec: the test objects themselves belong to the excluded suite-tree
collaborator; only these three read-only attributes are consumed. -/
structure TestCase where
  status : String
  critical : String
  tags : List String
deriving DecidableEq, Inhabited

/-- A suite-tree node: a dotted long name, a positional id, the tests
directly contained in the suite, and the child suites.  Modelled from the
spec: the suite tree is an excluded collaborator consumed read-only. -/
inductive Suite where
  | mk (longname : String) (sid : String) (tests : List TestCase) (suites : List Suite)

/-- The long (dotted) name of a suite. -/
def Suite.longname : Suite → String
  | .mk ln _ _ _ => ln

/-- The positional id of a suite. -/
def Suite.sid : Suite → String
  | .mk _ i _ _ => i

/-- The tests directly contained in a suite. -/
def Suite.tests : Suite → List TestCase
  | .mk _ _ ts _ => ts

/-- The child suites of a suite. -/
def Suite.suites : Suite → List Suite
  | .mk _ _ _ ss => ss

/-- Embeds class `Stat`: a named pass/fail counter (`statistics.py`
lines 90-95). -/
structure Stat where
  name : String := ""
  passed : Nat := 0
  failed : Nat := 0
deriving DecidableEq, Inhabited

/-- Embeds the `total` property of `Stat` (lines 102-104). -/
def Stat.total (s : Stat) : Nat :=
  s.passed + s.failed

/-- Embeds `Stat.add_stat` (lines 106-108): merge another stat's counts. -/
def Stat.addStat (s other : Stat) : Stat :=
  { s with passed := s.passed + other.passed, failed := s.failed + other.failed }

/-- Embeds `Stat.add_test` (lines 110-114): classify one test by its
status string and increment the matching counter. -/
def Stat.addTest (s : Stat) (t : TestCase) : Stat :=
  if t.status = "PASS" then { s with passed := s.passed + 1 }
  else { s with failed := s.failed + 1 }

/-- Embeds `Stat.fail_all` (lines 116-118): `failed += passed` then
`passed = 0`. -/
def Stat.failAll (s : Stat) : Stat :=
  { s with failed := s.failed + s.passed, passed := 0 }

/-- Embeds class `SuiteStat` (lines 143-149): a `Stat` named after the
suite's long name, extended with the suite's positional id. -/
structure SuiteStat extends Stat where
  id : String := ""
deriving DecidableEq, Inhabited

/-- Embeds the `SuiteStat.__init__` construction from a suite. -/
def SuiteStat.ofSuite (s : Suite) : SuiteStat :=
  { name := s.longname, passed := 0, failed := 0, id := s.sid }

/-- `add_stat` lifted to `SuiteStat` (inherited from `Stat`). -/
def SuiteStat.addStat (s : SuiteStat) (other : SuiteStat) : SuiteStat :=
  { s with toStat := s.toStat.addStat other.toStat }

/-- `add_test` lifted to `SuiteStat` (inherited from `Stat`). -/
def SuiteStat.addTest (s : SuiteStat) (t : TestCase) : SuiteStat :=
  { s with toStat := s.toStat.addTest t }

/-- Embeds class `SuiteStatistics` (lines 68-78): one node per suite, with
an `all` stat, a `critical` stat and a list of child nodes. -/
inductive SuiteStatistics where
  | mk (all : SuiteStat) (critical : SuiteStat) (suites : List SuiteStatistics)

/-- The `all` stat of a `SuiteStatistics` node. -/
def SuiteStatistics.all : SuiteStatistics → SuiteStat
  | .mk a _ _ => a

/-- The `critical` stat of a `SuiteStatistics` node. -/
def SuiteStatistics.critical : SuiteStatistics → SuiteStat
  | .mk _ c _ => c

/-- The child nodes of a `SuiteStatistics` node. -/
def SuiteStatistics.suites : SuiteStatistics → List SuiteStatistics
  | .mk _ _ ss => ss

/-- Embeds `SuiteStatistics.__init__` (lines 70-73). -/
def SuiteStatistics.init (s : Suite) : SuiteStatistics :=
  .mk (SuiteStat.ofSuite s) (SuiteStat.ofSuite s) []

/-- Embeds `SuiteStatistics.add_test` (lines 75-78): always count into
`all`, and into `critical` exactly when `test.critical == 'yes'`. -/
def SuiteStatistics.addTest (ss : SuiteStatistics) (t : TestCase) : SuiteStatistics :=
  .mk (ss.all.addTest t)
    (if t.critical = "yes" then ss.critical.addTest t else ss.critical)
    ss.suites

/-- Condition of `StatisticsBuilder.start_suite` line 46: the freshly
started suite is attached to its parent when the configured level is `-1`
(unlimited) or the current parent-stack height is below the level. -/
def attachCond (level : Int) (d : Nat) : Bool :=
  level == -1 || decide ((d : Int) < level)

/-- The state of `StatisticsBuilder` (lines 37-42): the stack of
in-progress parent nodes, the currently open node and the configured
suite-statistics level.  The Python code appends the still-empty child
object to the parent's `suites` at `start_suite` and mutates it in place
afterwards; the pure embedding instead records at `start_suite` whether
the child is to be attached (the same line-46 condition, evaluated on the
same stack height) and appends the finished child at `end_suite`. -/
structure Builder where
  parents : List (SuiteStatistics × Bool)
  current : SuiteStatistics
  level : Int

/-- Embeds `StatisticsBuilder.start_suite` (lines 44-50): push the current
node (with the attach decision for the new child) and open a fresh node. -/
def Builder.startSuite (b : Builder) (s : Suite) : Builder :=
  { b with
    parents := b.parents ++ [(b.current, attachCond b.level b.parents.length)],
    current := SuiteStatistics.init s }

/-- Embeds `StatisticsBuilder.end_suite` (lines 57-61): if a parent
exists, merge the finished node's `all` and `critical` totals into it
(regardless of the level), attach the finished node when the start-time
condition held, pop the stack and make the parent current again. -/
def Builder.endSuite (b : Builder) : Builder :=
  match b.parents.getLast? with
  | none => b
  | some (p, att) =>
    { b with
      parents := b.parents.dropLast,
      current := .mk (p.all.addStat b.current.all) (p.critical.addStat b.current.critical)
        (p.suites ++ if att then [b.current] else []) }

/-- Embeds the suite-statistics effect of `StatisticsBuilder.visit_test`
(lines 63-65): count the test into the currently open node.  The same
visit also feeds the test to the tag aggregator; that side effect touches
only the separate `TagStatistics` state and is embedded separately by
`TagStatistics.addTest`. -/
def Builder.visitTest (b : Builder) (t : TestCase) : Builder :=
  { b with current := b.current.addTest t }

mutual

/-- Modelled from the spec: the depth-first traversal driven by the
external `SuiteVisitor` base class (`robot.result.visitor`, not part of
the source file) — pre-order `start_suite`, then the suite's own tests via
`visit_test`, then the child suites recursively, post-order `end_suite`. -/
def Builder.visitSuite (b : Builder) : Suite → Builder
  | .mk ln i ts ss =>
    Builder.endSuite (Builder.visitSuites (ts.foldl Builder.visitTest
      (Builder.startSuite b (.mk ln i ts ss))) ss)

/-- Traversal of a list of sibling suites, left to right. -/
def Builder.visitSuites (b : Builder) : List Suite → Builder
  | [] => b
  | s :: rest => Builder.visitSuites (Builder.visitSuite b s) rest

end

/-- Embeds `StatisticsBuilder.build` (lines 52-55): seed a synthetic
wrapper node, run the traversal, and return the wrapper's sole child.
`suites[0]` raises `IndexError` when the wrapper has no child (only
possible when the level forbids attaching even the top suite), embedded
as `Option`. -/
def build (level : Int) (s : Suite) : Option SuiteStatistics :=
  (Builder.visitSuite ⟨[], SuiteStatistics.init s, level⟩ s).current.suites.head?

mutual

/-- Total number of tests anywhere in a suite tree. -/
def countTests : Suite → Nat
  | .mk _ _ ts ss => ts.length + countTestsList ss

/-- Total number of tests in a list of suite trees. -/
def countTestsList : List Suite → Nat
  | [] => 0
  | s :: rest => countTests s + countTestsList rest

end

mutual

/-- Number of tests marked critical (`critical == 'yes'`) in a suite tree. -/
def countCrit : Suite → Nat
  | .mk _ _ ts ss => ts.countP (fun t => t.critical == "yes") + countCritList ss

/-- Number of critical tests in a list of suite trees. -/
def countCritList : List Suite → Nat
  | [] => 0
  | s :: rest => countCrit s + countCritList rest

end

mutual

/-- Recursive characterisation of the node the builder produces for a
suite at depth `d` (the stack height at its `start_suite`): own tests
counted first, then each child's totals merged in order, the child node
itself kept only when the attach condition holds at the child's depth. -/
def nodeRec (level : Int) (d : Nat) : Suite → SuiteStatistics
  | .mk ln i ts ss =>
    nodeRecList level (d + 1)
      (ts.foldl SuiteStatistics.addTest (SuiteStatistics.init (.mk ln i ts ss))) ss

/-- Fold of `nodeRec` over sibling suites at depth `dc`, merging each
child's totals into the accumulator and attaching it when allowed. -/
def nodeRecList (level : Int) (dc : Nat) (acc : SuiteStatistics) : List Suite → SuiteStatistics
  | [] => acc
  | c :: rest =>
    nodeRecList level dc
      (.mk (acc.all.addStat (nodeRec level dc c).all)
        (acc.critical.addStat (nodeRec level dc c).critical)
        (acc.suites ++ if attachCond level dc then [nodeRec level dc c] else [])) rest

end

mutual

/-- Pruning of a fully built (unlimited-level) statistics tree down to a
level: counts at every node are kept unchanged, and the children of a node
at depth `d` are kept exactly when the attach condition holds at depth
`d + 1`. -/
def pruneStat (level : Int) (d : Nat) : SuiteStatistics → SuiteStatistics
  | .mk a c ss =>
    .mk a c (if attachCond level (d + 1) then pruneList level (d + 1) ss else [])

/-- `pruneStat` mapped over a list of child nodes. -/
def pruneList (level : Int) (d : Nat) : List SuiteStatistics → List SuiteStatistics
  | [] => []
  | k :: rest => pruneStat level d k :: pruneList level d rest

end

/-- Example suite tree used by concrete witnesses: a tree with one root suite holding two
sub-suites of one test each, built with the default unlimited level. -/
def c1Suite : Suite :=
  .mk "Root" "s1"
    [⟨"PASS", "yes", []⟩]
    [.mk "Root.A" "s1-s1" [⟨"FAIL", "no", []⟩] [],
     .mk "Root.B" "s1-s2" [⟨"PASS", "no", []⟩] []]

/-- Replace the current node of a builder state (proof-side abbreviation). -/
def Builder.setCurrent (b : Builder) (k : SuiteStatistics) : Builder :=
  { b with current := k }

/-- The effect a finished child subtree has on the node that was current
when it was started: totals merged, child attached when allowed
(proof-side abbreviation). -/
def Builder.mergeCurrent (b : Builder) (att : Bool) (k : SuiteStatistics) : Builder :=
  b.setCurrent (SuiteStatistics.mk (b.current.all.addStat k.all)
    (b.current.critical.addStat k.critical)
    (b.current.suites ++ if att then [k] else []))

/-- Tokens of the regular expression built by
`TagStatLink._get_match_regexp` (lines 344-365): `lpar`/`rpar` delimit a
capture group of dots, `dot` is the single-character wildcard `.`, `star`
is the capturing group `(.*)`, and `lit cs` is an escaped literal chunk
(matching its text literally, which is what `re.escape` achieves). -/
inductive RegTok where
  | lpar
  | rpar
  | dot
  | star
  | lit (cs : List Char)
deriving DecidableEq

/-- The two wildcard delimiter characters of the pattern language. -/
def isDelim (c : Char) : Bool := c == '*' || c == '?'

/-- Embeds the tokenizer `_match_pattern_tokenizer.split(pattern)` of
lines 320 and 347: split on each `*`/`?` while keeping the delimiters,
with (possibly empty) literal chunks between them. -/
def splitPat : List Char → List (List Char)
  | [] => [[]]
  | c :: rest =>
    if isDelim c then [] :: [c] :: splitPat rest
    else
      match splitPat rest with
      | t :: ts => (c :: t) :: ts
      | [] => [[c]]

/-- Embeds the token loop of `_get_match_regexp` (lines 345-364): skip
empty chunks; a `?` opens a capture group if none is open and adds a dot;
any other chunk first closes an open group; `*` becomes the capturing
`(.*)`; a literal chunk is appended escaped; a group still open after the
loop is closed. -/
def buildRe : List (List Char) → Bool → List RegTok
  | [], openP => if openP then [.rpar] else []
  | t :: ts, openP =>
    if t = [] then buildRe ts openP
    else if t = ['?'] then (if openP then [] else [.lpar]) ++ .dot :: buildRe ts true
    else (if openP then [.rpar] else []) ++
      (if t = ['*'] then .star :: buildRe ts false else .lit t :: buildRe ts false)

/-- Embeds `TagStatLink._get_match_regexp` (lines 344-365).  The `^`/`$`
anchors and the `re.IGNORECASE` flag of line 365 are part of the matching
semantics below (full-string, case-insensitive). -/
def getMatchRegexp (p : List Char) : List RegTok :=
  buildRe (splitPat p) false

/-- Shape of one capture group: a `(.*)` star group or a group of `n`
single-character wildcards. -/
inductive GroupKind where
  | gstar
  | gdots (n : Nat)
deriving DecidableEq

/-- The capture groups of a compiled token list, in order (`none` when the
parentheses are not well formed).  The state carries the number of dots of
the currently open group. -/
def capturesAux : List RegTok → Option Nat → Option (List GroupKind)
  | [], none => some []
  | [], some _ => none
  | .star :: r, none => (capturesAux r none).map (.gstar :: ·)
  | .lit _ :: r, none => capturesAux r none
  | .lpar :: r, none => capturesAux r (some 0)
  | .dot :: r, some n => capturesAux r (some (n + 1))
  | .rpar :: r, some n => (capturesAux r none).map (.gdots n :: ·)
  | _, _ => none

/-- The capture groups of a compiled token list. -/
def captures (ts : List RegTok) : Option (List GroupKind) :=
  capturesAux ts none

/-- Reference reading of the spec sentence for C5: one capture group per
`*` and one per maximal run of consecutive `?`, in source order (the
accumulator counts the pending `?` run). -/
def groupsAux : List Char → Nat → List GroupKind
  | [], q => if q = 0 then [] else [.gdots q]
  | c :: r, q =>
    if c = '?' then groupsAux r (q + 1)
    else (if q = 0 then [] else [.gdots q]) ++
      (if c = '*' then .gstar :: groupsAux r 0 else groupsAux r 0)

/-- The capture-group shapes a wildcard pattern should produce. -/
def groupsSpec (p : List Char) : List GroupKind :=
  groupsAux p 0

/-- Grouped form of the compiled regex: literal chunks, star groups and
dot groups. -/
inductive GTok where
  | glit (cs : List Char)
  | gstar
  | gdots (n : Nat)
deriving DecidableEq

/-- Parse a compiled token list into grouped form, keeping literals. -/
def toRegeAux : List RegTok → Option Nat → Option (List GTok)
  | [], none => some []
  | [], some _ => none
  | .star :: r, none => (toRegeAux r none).map (.gstar :: ·)
  | .lit cs :: r, none => (toRegeAux r none).map (.glit cs :: ·)
  | .lpar :: r, none => toRegeAux r (some 0)
  | .dot :: r, some n => toRegeAux r (some (n + 1))
  | .rpar :: r, some n => (toRegeAux r none).map (.gdots n :: ·)
  | _, _ => none

/-- Grouped form of a compiled token list. -/
def toRege (ts : List RegTok) : Option (List GTok) :=
  toRegeAux ts none

/-- Case-insensitive character equality (`re.IGNORECASE`). -/
def lowEq (a b : Char) : Bool := a.toLower == b.toLower

/-- Case-insensitive test that the first list is a leading chunk of the
second. -/
def ciLead : List Char → List Char → Bool
  | [], _ => true
  | _ :: _, [] => false
  | a :: ps, b :: ss => lowEq a b && ciLead ps ss

/-- Backtracking matcher for the grouped regex against a string, anchored
at both ends and case-insensitive on literals, returning the captured
groups in order on success.  A star group is greedy: it first tries to
extend by one character and only then tries to close, which is exactly the
backtracking order of `(.*)`.  `fuel` merely bounds the recursion depth. -/
def matchGF : Nat → List GTok → List Char → Option (List (List Char))
  | 0, _, _ => none
  | _ + 1, [], s => if s.isEmpty then some [] else none
  | fuel + 1, .glit l :: g, s =>
    if ciLead l s then matchGF fuel g (s.drop l.length) else none
  | fuel + 1, .gdots n :: g, s =>
    if n ≤ s.length then (matchGF fuel g (s.drop n)).map (s.take n :: ·) else none
  | fuel + 1, .gstar :: g, [] => (matchGF fuel g []).map ([] :: ·)
  | fuel + 1, .gstar :: g, c :: s =>
    match matchGF fuel (.gstar :: g) s with
    | some gs => some (gs.modifyHead (c :: ·))
    | none => (matchGF fuel g (c :: s)).map ([] :: ·)

/-- Run the matcher with enough fuel for the search to be exhaustive
(every step consumes a token or a character). -/
def matchGroups (g : List GTok) (s : List Char) : Option (List (List Char)) :=
  matchGF (g.length + s.length + 1) g s

/-- Match a string against a compiled token list: parse the grouped form,
then run the anchored case-insensitive matcher. -/
def matchTok (tokens : List RegTok) (s : List Char) : Option (List (List Char)) :=
  (toRege tokens).bind (fun g => matchGroups g s)

/-- One scan of Python `str.replace`: replace each non-overlapping
occurrence of `pat` (left to right) by `rep`.  `fuel` bounds the scan;
callers pass the string length, which suffices because every step consumes
at least one character. -/
def replaceGo (pat rep : List Char) : Nat → List Char → List Char
  | _, [] => []
  | 0, s => s
  | fuel + 1, c :: cs =>
    if pat.isPrefixOf (c :: cs) then rep ++ replaceGo pat rep fuel ((c :: cs).drop pat.length)
    else c :: replaceGo pat rep fuel cs

/-- Python `str.replace(pat, rep)` on character lists, for nonempty `pat`
(the placeholders `%1`, `%2`, … and `'_'` used by `TagStatLink` are never
empty; an empty `pat` returns the string unchanged). -/
def strReplace (s pat rep : List Char) : List Char :=
  if pat = [] then s else replaceGo pat rep s.length s

/-- `str.replace` on `String`. -/
def strReplaceS (s pat rep : String) : String :=
  ⟨strReplace s.data pat.data rep.data⟩

/-- Embeds class `TagStatLink` (lines 319-342): the compiled pattern
tokens, the link template, and the title template. -/
structure TagStatLink where
  tokens : List RegTok
  link : String
  title : String

/-- Embeds `TagStatLink.__init__` (lines 322-325): compile the pattern and
replace underscores of the title by spaces. -/
def TagStatLink.init (pattern link title : String) : TagStatLink :=
  ⟨getMatchRegexp pattern.data, link, strReplaceS title "_" " "⟩

/-- Embeds `TagStatLink.matches` (lines 327-328). -/
def TagStatLink.matchesTag (l : TagStatLink) (tag : String) : Bool :=
  (matchTok l.tokens tag.data).isSome

/-- Embeds `TagStatLink._replace_groups` (lines 337-342): substitute the
i-th captured group for the placeholder `%(i+1)` in both templates, in
group order, by sequential string replacement. -/
def replaceGroups (link title : String) (groups : List (List Char)) : String × String :=
  (groups.enum).foldl
    (fun p ig =>
      (strReplaceS p.1 ("%" ++ toString (ig.1 + 1)) ⟨ig.2⟩,
       strReplaceS p.2 ("%" ++ toString (ig.1 + 1)) ⟨ig.2⟩))
    (link, title)

/-- Embeds `TagStatLink.get_link` (lines 330-335). -/
def TagStatLink.getLink (l : TagStatLink) (tag : String) : Option (String × String) :=
  match matchTok l.tokens tag.data with
  | none => none
  | some gs => some (replaceGroups l.link l.title gs)

/-- The external single-tag pattern matcher `TagPatterns`
(`robot.model.tags`).  Modelled from the spec: only its Python truthiness
(non-emptiness) and its `match(tag)` predicate are consumed. -/
structure TagPatternsM where
  isEmpty : Bool
  matchTag : String → Bool

/-- Embeds class `TagStatDoc` (lines 309-316): a doc text guarded by an
external tag pattern. -/
structure TagStatDoc where
  text : String
  matchTag : String → Bool

/-- Embeds class `TagStatInfo` (lines 296-306). -/
structure TagStatInfo where
  docs : List TagStatDoc
  links : List TagStatLink

/-- Embeds `TagStatInfo.get_doc` (lines 302-303): join the texts of the
matching doc rules with `" & "`, in rule order. -/
def TagStatInfo.getDoc (info : TagStatInfo) (tag : String) : String :=
  String.intercalate " & " ((info.docs.filter (fun d => d.matchTag tag)).map (fun d => d.text))

/-- Embeds `TagStatInfo.get_links` (lines 305-306): one substituted
(link, title) pair per matching link rule, in rule order, skipping
non-matching rules. -/
def TagStatInfo.getLinks (info : TagStatInfo) (tag : String) : List (String × String) :=
  info.links.filterMap (fun l => if l.matchesTag tag then l.getLink tag else none)

/-- Reference reading of the spec sentence for C6: each matching rule
contributes its two templates with every captured group substituted for
its positional placeholder, substitution running over each template
separately. -/
def substGroups (s : String) (groups : List (List Char)) : String :=
  (groups.enum).foldl
    (fun acc ig => strReplaceS acc ("%" ++ toString (ig.1 + 1)) ⟨ig.2⟩) s

/-- Reference reading of `get_links` for C6, built from the spec's words. -/
def getLinksSpec (info : TagStatInfo) (tag : String) : List (String × String) :=
  info.links.filterMap (fun l =>
    (matchTok l.tokens tag.data).map (fun gs => (substGroups l.link gs, substGroups l.title gs)))

/-- Embeds class `TagStat` (lines 156-199): a `Stat` extended with doc,
links, criticality flags, the combined-pattern text and the matched
tests. -/
structure TagStat extends Stat where
  doc : String := ""
  links : List (String × String) := []
  critical : Bool := false
  non_critical : Bool := false
  combined : String := ""
  tests : List TestCase := []
deriving DecidableEq, Inhabited

/-- Embeds `TagStat.add_test` (lines 188-190): count the test and record
it. -/
def TagStat.addTest (ts : TagStat) (t : TestCase) : TagStat :=
  { ts with toStat := ts.toStat.addTest t, tests := ts.tests ++ [t] }

/-- Embeds class `CombinedTag` (lines 215-223).  Its `TagPatterns` matcher
over a test's full tag set is external; modelled from the spec as a
predicate on tag lists. -/
structure CombinedTag where
  pattern : String
  name : String
  matchTags : List String → Bool

/-- Embeds `CombinedTag.__init__` (lines 217-220): `name or pattern` — an
empty display name defaults to the pattern text. -/
def CombinedTag.init (pattern name : String) (m : List String → Bool) : CombinedTag :=
  ⟨pattern, if name = "" then pattern else name, m⟩

/-- The external criticality classifier (`suite.critical`), consumed via
its two predicates.  Modelled from the spec (section 6). -/
structure Criticality where
  isCritical : String → Bool
  isNonCritical : String → Bool

/-- Modelled from the spec: the key normalisation of
`utils.NormalizedDict(ignore=['_'])` — case-insensitive, ignoring spaces
and underscores. -/
def normTag (s : String) : String :=
  ⟨(s.data.filter (fun c => !(c == ' ' || c == '_'))).map Char.toLower⟩

/-- Lookup in the association-list embedding of the normalised dict. -/
def ndFind (m : List (String × TagStat)) (k : String) : Option TagStat :=
  (m.find? (fun e => e.1 == normTag k)).map (fun e => e.2)

/-- Membership test of the normalised dict (`tag in self.stats`). -/
def ndHas (m : List (String × TagStat)) (k : String) : Bool :=
  (ndFind m k).isSome

/-- Assignment `self.stats[k] = v` of the normalised dict. -/
def ndSet : List (String × TagStat) → String → TagStat → List (String × TagStat)
  | [], k, v => [(normTag k, v)]
  | e :: rest, k, v =>
    if e.1 == normTag k then (e.1, v) :: rest else e :: ndSet rest k v

/-- In-place mutation `self.stats[k].f()` of the normalised dict: apply
`f` to the stored stat when the key is present. -/
def ndUpdate : List (String × TagStat) → String → (TagStat → TagStat) → List (String × TagStat)
  | [], _, _ => []
  | e :: rest, k, f =>
    if e.1 == normTag k then (e.1, f e.2) :: rest else e :: ndUpdate rest k f

/-- Total of the stat stored under (the normalisation of) `k`; 0 when the
key is absent. -/
def totalAt (m : List (String × TagStat)) (k : String) : Nat :=
  match ndFind m k with
  | some st => st.total
  | none => 0

/-- Embeds class `TagStatistics` (lines 226-280): the normalised
tag-name → `TagStat` map, the include/exclude patterns, the doc/link info
and the combined-tag definitions. -/
structure TagStatistics where
  stats : List (String × TagStat)
  inclPats : TagPatternsM
  exclPats : TagPatternsM
  info : TagStatInfo
  combine : List CombinedTag

/-- Embeds `TagStatistics.__init__` and `_create_combined`
(lines 228-243): seed the map with one zero-count `TagStat` per combined
definition, keyed by the combined name, flags off, `combined` set to the
pattern text, doc/links resolved against the combined name. -/
def TagStatistics.init (incl excl : TagPatternsM)
    (combines : List (String × String × (List String → Bool)))
    (docs : List TagStatDoc) (links : List TagStatLink) : TagStatistics :=
  let info : TagStatInfo := ⟨docs, links⟩
  let combs := combines.map (fun pnm => CombinedTag.init pnm.1 pnm.2.1 pnm.2.2)
  { stats := combs.foldl (fun m comb => ndSet m comb.name
      { name := comb.name, doc := info.getDoc comb.name,
        links := info.getLinks comb.name, combined := comb.pattern }) [],
    inclPats := incl, exclPats := excl, info := info, combine := combs }

/-- Embeds `TagStatistics._is_included` (lines 261-264): with a nonempty
include list the tag must match it, and must not match the exclude list. -/
def TagStatistics.isIncluded (ts : TagStatistics) (tag : String) : Bool :=
  if !ts.inclPats.isEmpty && !ts.inclPats.matchTag tag then false
  else !ts.exclPats.matchTag tag

/-- The fresh `TagStat` that `_add_tags_statistics` creates for a literal
tag on first sight (lines 254-258): doc and links from the info, the two
criticality flags from the classifier, `combined` empty. -/
def freshTagStat (ts : TagStatistics) (crit : Criticality) (tag : String) : TagStat where
  name := tag
  doc := ts.info.getDoc tag
  links := ts.info.getLinks tag
  critical := crit.isCritical tag
  non_critical := crit.isNonCritical tag

/-- One step of the literal-tag loop of `_add_tags_statistics`
(lines 250-259): skip a filtered-out tag, create its stat on first sight,
then count the test into its stat. -/
def addTagsStep (ts : TagStatistics) (t : TestCase) (crit : Criticality)
    (m : List (String × TagStat)) (tag : String) : List (String × TagStat) :=
  if !ts.isIncluded tag then m
  else
    ndUpdate (if ndHas m tag then m else ndSet m tag (freshTagStat ts crit tag))
      tag (fun st => st.addTest t)

/-- Embeds `TagStatistics._add_tags_statistics` (lines 249-259): for each
literal tag of the test that passes the include/exclude filter, create its
stat on first sight (flags from the classifier, doc/links from the info)
and count the test into it. -/
def TagStatistics.addTagsStatistics (ts : TagStatistics) (t : TestCase)
    (crit : Criticality) : TagStatistics :=
  { ts with stats := t.tags.foldl (addTagsStep ts t crit) ts.stats }

/-- One step of the combined loop of `_add_combined_statistics`
(lines 267-269): when the combined pattern matches the test's full tag
set, count the test into the stat stored under the combined name. -/
def addCombinedStep (t : TestCase) (m : List (String × TagStat)) (comb : CombinedTag) :
    List (String × TagStat) :=
  if comb.matchTags t.tags then ndUpdate m comb.name (fun st => st.addTest t) else m

/-- Embeds `TagStatistics._add_combined_statistics` (lines 266-269): every
combined definition whose pattern matches the test's full tag set counts
the test into its (seeded) stat; the include/exclude filter plays no role
here.  `self.stats[comb.name]` presumes the seeded key: an absent key
leaves the embedded map unchanged where Python would raise `KeyError`. -/
def TagStatistics.addCombinedStatistics (ts : TagStatistics) (t : TestCase) : TagStatistics :=
  { ts with stats := ts.combine.foldl (addCombinedStep t) ts.stats }

/-- Embeds `TagStatistics.add_test` (lines 245-247). -/
def TagStatistics.addTest (ts : TagStatistics) (t : TestCase) (crit : Criticality) :
    TagStatistics :=
  (ts.addTagsStatistics t crit).addCombinedStatistics t

/-- Boolean comparison core of `TagStat.__cmp__` (lines 192-199): Python
`cmp` on booleans (`False < True`), applied other-first so that a set flag
sorts earlier; full ties fall through to the name comparison `o`. -/
def cmpCore (c1 n1 b1 c2 n2 b2 : Bool) (o : Ordering) : Ordering :=
  if c1 != c2 then compare c2.toNat c1.toNat
  else if n1 != n2 then compare n2.toNat n1.toNat
  else if b1 != b2 then compare b2.toNat b1.toNat
  else o

/-- Python `cmp` on character lists: lexicographic by code point. -/
def cmpChars : List Char → List Char → Ordering
  | [], [] => .eq
  | [], _ :: _ => .lt
  | _ :: _, [] => .gt
  | a :: as, b :: bs =>
    if a < b then .lt else if b < a then .gt else cmpChars as bs

/-- Python `cmp` on strings (lexicographic by code point). -/
def nameCmp (a b : String) : Ordering :=
  cmpChars a.data b.data

/-- Ascending name order (`cmp(a, b) <= 0` on the names). -/
def nameLe (a b : String) : Prop := cmpChars a.data b.data ≠ Ordering.gt

instance : DecidableRel nameLe :=
  fun a b => inferInstanceAs (Decidable (cmpChars a.data b.data ≠ Ordering.gt))

/-- Embeds `TagStat.__cmp__` (lines 192-199) with the name tie-break of
`Stat.__cmp__` (lines 133-134). -/
def cmpTagStat (a b : TagStat) : Ordering :=
  cmpCore a.critical a.non_critical (a.combined != "") b.critical b.non_critical
    (b.combined != "") (nameCmp a.name b.name)

/-- The order used by Python `sorted` with this `__cmp__`: `a` may precede
`b` exactly when the comparison is not `gt`. -/
def tagLe (a b : TagStat) : Prop := cmpTagStat a b ≠ Ordering.gt

instance : DecidableRel tagLe :=
  fun a b => inferInstanceAs (Decidable (cmpTagStat a b ≠ Ordering.gt))

/-- Embeds the sorting of `TagStatistics.__iter__` (lines 274-275):
`sorted(self.stats.values())`, embedded as a stable insertion sort by the
`__cmp__` order. -/
def sortStats (l : List TagStat) : List TagStat := List.insertionSort tagLe l

/-- Embeds `TagStatistics.__iter__` (lines 274-275). -/
def TagStatistics.iterStats (ts : TagStatistics) : List TagStat :=
  sortStats (ts.stats.map Prod.snd)

/-- Numeric bucket on the three flags: critical, non-critical, combined,
plain. -/
def bucketB (c n b : Bool) : Nat :=
  if c then 0 else if n then 1 else if b then 2 else 3

/-- Numeric bucket of the spec's ordering rule: critical, non-critical,
combined, plain. -/
def bucket (s : TagStat) : Nat :=
  bucketB s.critical s.non_critical (s.combined != "")

/-- The spec's ordering: by bucket, then ascending by name. -/
def bucketLe (a b : TagStat) : Prop :=
  bucket a < bucket b ∨ (bucket a = bucket b ∧ nameLe a.name b.name)

instance : DecidableRel bucketLe :=
  fun a b => inferInstanceAs
    (Decidable (bucket a < bucket b ∨ (bucket a = bucket b ∧ nameLe a.name b.name)))

/-- Key encoding the three comparison booleans lexicographically
(critical strongest). -/
def kB (c n b : Bool) : Nat := 4 * (!c).toNat + 2 * (!n).toNat + (!b).toNat

/-- The boolean key of a `TagStat`. -/
def kT (s : TagStat) : Nat := kB s.critical s.non_critical (s.combined != "")

/-- Category well-formedness of a `TagStat`: at most one of the
critical/non-critical flags, and a combined stat carries neither — as
holds for every stat the aggregator creates whenever the classifier's two
predicates are exclusive. -/
def wfTagStat (s : TagStat) : Prop :=
  ¬(s.critical = true ∧ s.non_critical = true) ∧
    (s.combined != "" → s.critical = false ∧ s.non_critical = false)

instance : DecidablePred wfTagStat :=
  fun s => inferInstanceAs
    (Decidable (¬(s.critical = true ∧ s.non_critical = true) ∧
      (s.combined != "" → s.critical = false ∧ s.non_critical = false)))

/-- Two-stat collection refuting C7's universal reading: `c7X` is flagged
both critical and non-critical (the model does not enforce exclusivity, so
an external classifier answering true to both produces exactly this), and
sorts before the plainly critical `c7Y` although its name is larger. -/
def c7X : TagStat where
  name := "b"
  critical := true
  non_critical := true

/-- The plainly critical stat of the C7 counterexample. -/
def c7Y : TagStat where
  name := "a"
  critical := true

/-- The `TagStatistics` collection of the C7 counterexample. -/
def c7Bad : TagStatistics where
  stats := [("b", c7X), ("a", c7Y)]
  inclPats := ⟨true, fun _ => false⟩
  exclPats := ⟨true, fun _ => false⟩
  info := ⟨[], []⟩
  combine := []

/-- A well-formed collection with one stat per bucket, deliberately stored
out of order, witnessing the amended C7. -/
def c7Good : TagStatistics where
  stats :=
    [("plainb", { name := "plainB" }),
     ("comb", { name := "comb", combined := "x AND y" }),
     ("plaina", { name := "plainA" }),
     ("noncrit", { name := "noncrit", non_critical := true }),
     ("crit", { name := "crit", critical := true })]
  inclPats := ⟨true, fun _ => false⟩
  exclPats := ⟨true, fun _ => false⟩
  info := ⟨[], []⟩
  combine := []

/-- The combined-tag matcher of the C4 witness: the external compound
pattern `"x AND y"` holds of a tag set containing both `x` and `y`. -/
def c4Matcher (tags : List String) : Bool :=
  tags.contains "x" && tags.contains "y"

/-- The combined definition of the C4 witness. -/
def c4Comb : CombinedTag :=
  CombinedTag.init "x AND y" "XY" c4Matcher

/-- The tag statistics of the C4 witness: a nonempty include pattern
matching nothing, so that every literal tag is filtered out, and one
combined definition. -/
def c4Stats : TagStatistics :=
  TagStatistics.init ⟨false, fun _ => false⟩ ⟨true, fun _ => false⟩
    [("x AND y", "XY", c4Matcher)] [] []

/-- The test of the C4 witness: both its literal tags are rejected by the
include filter, yet the combined pattern matches its tag set. -/
def c4Test : TestCase :=
  ⟨"PASS", "yes", ["x", "y"]⟩

/-- The classifier of the C4 witness. -/
def c4Crit : Criticality :=
  ⟨fun _ => false, fun _ => false⟩

end Robot

namespace Robot

theorem suiteStatistics_ext : ∀ {a b : SuiteStatistics}, a.all = b.all →
    a.critical = b.critical → a.suites = b.suites → a = b
  | .mk _ _ _, .mk _ _ _, h1, h2, h3 => by
    simp only [SuiteStatistics.all, SuiteStatistics.critical, SuiteStatistics.suites] at h1 h2 h3
    rw [h1, h2, h3]

theorem Stat.addStat_total (a b : Stat) : (a.addStat b).total = a.total + b.total := by
  simp only [Stat.addStat, Stat.total]; omega

theorem Stat.addTest_total (a : Stat) (t : TestCase) :
    (a.addTest t).total = a.total + 1 := by
  by_cases h : t.status = "PASS" <;> simp only [Stat.addTest, Stat.total, h,
    if_true, if_false, reduceIte] <;> omega

@[simp] theorem SuiteStatistics.all_mk (a c : SuiteStat) (ss : List SuiteStatistics) :
    (SuiteStatistics.mk a c ss).all = a := rfl

@[simp] theorem SuiteStatistics.critical_mk (a c : SuiteStat) (ss : List SuiteStatistics) :
    (SuiteStatistics.mk a c ss).critical = c := rfl

@[simp] theorem SuiteStatistics.suites_mk (a c : SuiteStat) (ss : List SuiteStatistics) :
    (SuiteStatistics.mk a c ss).suites = ss := rfl

@[simp] theorem SuiteStatistics.addTest_all (ss : SuiteStatistics) (t : TestCase) :
    (ss.addTest t).all = ss.all.addTest t := by cases ss; rfl

@[simp] theorem SuiteStatistics.addTest_suites (ss : SuiteStatistics) (t : TestCase) :
    (ss.addTest t).suites = ss.suites := by cases ss; rfl

theorem SuiteStatistics.addTest_critical (ss : SuiteStatistics) (t : TestCase) :
    (ss.addTest t).critical
      = if t.critical = "yes" then ss.critical.addTest t else ss.critical := by
  cases ss; rfl

theorem suiteStatAddTest_total (s : SuiteStat) (t : TestCase) :
    (s.addTest t).total = s.total + 1 := Stat.addTest_total s.toStat t

theorem suiteStatAddStat_total (a b : SuiteStat) :
    (a.addStat b).total = a.total + b.total := Stat.addStat_total a.toStat b.toStat

@[simp] theorem SuiteStat.ofSuite_total (s : Suite) : (SuiteStat.ofSuite s).total = 0 := rfl

theorem foldl_visitTest (ts : List TestCase) : ∀ (b : Builder),
    ts.foldl Builder.visitTest b
      = b.setCurrent (ts.foldl SuiteStatistics.addTest b.current) := by
  induction ts with
  | nil => intro b; rfl
  | cons t rest ih =>
    intro b
    simp only [List.foldl_cons, ih, Builder.visitTest, Builder.setCurrent]

mutual

theorem visitSuite_eq : ∀ (s : Suite) (b : Builder),
    b.visitSuite s = b.mergeCurrent (attachCond b.level b.parents.length)
      (nodeRec b.level b.parents.length s)
  | .mk ln i ts ss, b => by
    rw [Builder.visitSuite, foldl_visitTest,
      visitSuites_eq ss ((Builder.startSuite b (.mk ln i ts ss)).setCurrent
        (ts.foldl SuiteStatistics.addTest
          (Builder.startSuite b (.mk ln i ts ss)).current))]
    simp only [Builder.startSuite, Builder.endSuite, Builder.setCurrent,
      Builder.mergeCurrent, List.length_append, List.length_cons, List.length_nil,
      List.getLast?_concat, List.dropLast_concat, nodeRec,
      SuiteStatistics.all, SuiteStatistics.critical, SuiteStatistics.suites]

theorem visitSuites_eq : ∀ (ss : List Suite) (b : Builder),
    b.visitSuites ss
      = b.setCurrent (nodeRecList b.level b.parents.length b.current ss)
  | [], b => by simp [Builder.visitSuites, nodeRecList, Builder.setCurrent]
  | c :: rest, b => by
    rw [Builder.visitSuites, visitSuites_eq rest (b.visitSuite c), visitSuite_eq c b]
    simp only [nodeRecList, Builder.setCurrent, Builder.mergeCurrent]

end

theorem build_eq (level : Int) (s : Suite) :
    build level s = if attachCond level 0 then some (nodeRec level 0 s) else none := by
  unfold build
  rw [visitSuite_eq]
  by_cases h : attachCond level 0 <;>
    simp [h, SuiteStatistics.init, Builder.mergeCurrent, Builder.setCurrent]

theorem foldl_addTest_stats (ts : List TestCase) : ∀ (acc : SuiteStatistics),
    ((ts.foldl SuiteStatistics.addTest acc).all.total = acc.all.total + ts.length) ∧
    ((ts.foldl SuiteStatistics.addTest acc).critical.total
      = acc.critical.total + ts.countP (fun t => t.critical == "yes")) ∧
    ((ts.foldl SuiteStatistics.addTest acc).suites = acc.suites) := by
  induction ts with
  | nil => intro acc; simp
  | cons t rest ih =>
    intro acc
    obtain ⟨h1, h2, h3⟩ := ih (acc.addTest t)
    refine ⟨?_, ?_, ?_⟩
    · rw [List.foldl_cons, h1, SuiteStatistics.addTest_all, suiteStatAddTest_total,
        List.length_cons]
      omega
    · rw [List.foldl_cons, h2, List.countP_cons, SuiteStatistics.addTest_critical]
      by_cases hc : t.critical = "yes"
      · simp [hc, suiteStatAddTest_total]
        omega
      · simp [hc]
    · rw [List.foldl_cons, h3, SuiteStatistics.addTest_suites]

mutual

theorem nodeRec_totals : ∀ (s : Suite) (level : Int) (d : Nat),
    (nodeRec level d s).all.total = countTests s ∧
    (nodeRec level d s).critical.total = countCrit s
  | .mk ln i ts ss, level, d => by
    rw [nodeRec, countTests, countCrit]
    obtain ⟨h1, h2, -⟩ := foldl_addTest_stats ts (SuiteStatistics.init (.mk ln i ts ss))
    obtain ⟨g1, g2⟩ := nodeRecList_totals ss level (d + 1)
        (ts.foldl SuiteStatistics.addTest (SuiteStatistics.init (.mk ln i ts ss)))
    rw [g1, g2, h1, h2]
    simp [SuiteStatistics.init, Stat.total, SuiteStat.ofSuite]

theorem nodeRecList_totals : ∀ (ss : List Suite) (level : Int) (dc : Nat)
      (acc : SuiteStatistics),
    (nodeRecList level dc acc ss).all.total = acc.all.total + countTestsList ss ∧
    (nodeRecList level dc acc ss).critical.total = acc.critical.total + countCritList ss
  | [], level, dc, acc => by simp [nodeRecList, countTestsList, countCritList]
  | c :: rest, level, dc, acc => by
    rw [nodeRecList, countTestsList, countCritList]
    obtain ⟨h1, h2⟩ := nodeRec_totals c level dc
    obtain ⟨g1, g2⟩ := nodeRecList_totals rest level dc
      (.mk (acc.all.addStat (nodeRec level dc c).all)
        (acc.critical.addStat (nodeRec level dc c).critical)
        (acc.suites ++ if attachCond level dc then [nodeRec level dc c] else []))
    rw [g1, g2]
    simp only [SuiteStatistics.all_mk, SuiteStatistics.critical_mk]
    rw [suiteStatAddStat_total, suiteStatAddStat_total, h1, h2]
    constructor <;> omega

end

mutual

theorem countCrit_le : ∀ (s : Suite), countCrit s ≤ countTests s
  | .mk _ _ ts ss => by
    rw [countCrit, countTests]
    have h1 := List.countP_le_length (p := fun t => t.critical == "yes") (l := ts)
    have h2 := countCritList_le ss
    omega

theorem countCritList_le : ∀ (ss : List Suite), countCritList ss ≤ countTestsList ss
  | [] => le_refl _
  | c :: rest => by
    rw [countCritList, countTestsList]
    have h1 := countCrit_le c
    have h2 := countCritList_le rest
    omega

end

theorem pruneStat_eq_mk (level : Int) (d : Nat) (k : SuiteStatistics) :
    pruneStat level d k = .mk k.all k.critical
      (if attachCond level (d + 1) then pruneList level (d + 1) k.suites else []) := by
  cases k
  rw [pruneStat]
  simp [SuiteStatistics.all, SuiteStatistics.critical, SuiteStatistics.suites]

theorem pruneStat_all (level : Int) (d : Nat) (k : SuiteStatistics) :
    (pruneStat level d k).all = k.all := by
  rw [pruneStat_eq_mk]; rfl

theorem pruneStat_critical (level : Int) (d : Nat) (k : SuiteStatistics) :
    (pruneStat level d k).critical = k.critical := by
  rw [pruneStat_eq_mk]; rfl

theorem pruneList_append (level : Int) (d : Nat) (l1 l2 : List SuiteStatistics) :
    pruneList level d (l1 ++ l2) = pruneList level d l1 ++ pruneList level d l2 := by
  induction l1 with
  | nil => simp [pruneList]
  | cons k rest ih => simp [pruneList, ih]

mutual

theorem nodeRec_prune : ∀ (s : Suite) (level : Int) (d : Nat),
    nodeRec level d s = pruneStat level d (nodeRec (-1) d s)
  | .mk ln i ts ss, level, d => by
    rw [nodeRec, nodeRec, pruneStat_eq_mk]
    obtain ⟨h1, h2, h3⟩ := nodeRecList_prune ss level (d + 1)
      (ts.foldl SuiteStatistics.addTest (SuiteStatistics.init (.mk ln i ts ss)))
      (ts.foldl SuiteStatistics.addTest (SuiteStatistics.init (.mk ln i ts ss)))
      rfl rfl (by
        obtain ⟨-, -, hs⟩ := foldl_addTest_stats ts (SuiteStatistics.init (.mk ln i ts ss))
        rw [hs]
        simp [SuiteStatistics.init, pruneList])
    exact suiteStatistics_ext h1 h2 h3

theorem nodeRecList_prune : ∀ (ss : List Suite) (level : Int) (dc : Nat)
      (acc1 acc2 : SuiteStatistics),
    acc1.all = acc2.all → acc1.critical = acc2.critical →
    acc1.suites = (if attachCond level dc then pruneList level dc acc2.suites else []) →
    (nodeRecList level dc acc1 ss).all = (nodeRecList (-1) dc acc2 ss).all ∧
    (nodeRecList level dc acc1 ss).critical = (nodeRecList (-1) dc acc2 ss).critical ∧
    (nodeRecList level dc acc1 ss).suites
      = (if attachCond level dc
          then pruneList level dc (nodeRecList (-1) dc acc2 ss).suites else [])
  | [], level, dc, acc1, acc2, ha, hc, hs => ⟨ha, hc, hs⟩
  | c :: rest, level, dc, acc1, acc2, ha, hc, hs => by
    rw [nodeRecList, nodeRecList]
    have hprune := nodeRec_prune c level dc
    have hattm1 : attachCond (-1) dc = true := by simp [attachCond]
    refine nodeRecList_prune rest level dc _ _ ?_ ?_ ?_
    · simp only [SuiteStatistics.all_mk, ha, hprune, pruneStat_all]
    · simp only [SuiteStatistics.critical_mk, hc, hprune, pruneStat_critical]
    · simp only [SuiteStatistics.suites_mk, hs, hprune, hattm1, if_true]
      by_cases hatt : attachCond level dc
      · simp [hatt, pruneList_append, pruneList]
      · simp [hatt]

end

/-- Claim C1: for every suite tree and every configured suite-statistics
level (including `-1` for unlimited), whenever `StatisticsBuilder.build`
returns a root `SuiteStatistics`, that root's `all` stat has
`passed + failed` equal to the total number of tests anywhere in the
tree. -/
theorem c1_build_all_total (level : Int) (s : Suite) (r : SuiteStatistics)
    (h : build level s = some r) : r.all.total = countTests s := by
  rw [build_eq] at h
  by_cases hatt : attachCond level 0
  · rw [if_pos hatt] at h
    cases h
    exact (nodeRec_totals s level 0).1
  · rw [if_neg hatt] at h
    cases h

theorem c1_build_all_total_witness :
    (nodeRec (-1) 0 c1Suite).all.total = countTests c1Suite :=
  c1_build_all_total (-1) c1Suite (nodeRec (-1) 0 c1Suite) (by rw [build_eq]; rfl)

/-- Claim C2: for every suite tree and every depth level at which `build`
produces a root at all, the result is exactly the unlimited (`-1`) result
pruned: counts (`all` and `critical`) at every retained node are those of
the corresponding node of the unlimited tree — the level only decides
which children are kept (`pruneStat` reshapes `suites` and never touches
counts), because the merge of a finished suite's totals into its parent at
`end_suite` happens regardless of the level. -/
theorem c2_level_only_prunes (level : Int) (s : Suite) (r : SuiteStatistics)
    (h : build level s = some r) :
    ∃ ru, build (-1) s = some ru ∧ r = pruneStat level 0 ru ∧
      r.all = ru.all ∧ r.critical = ru.critical := by
  rw [build_eq] at h
  by_cases hatt : attachCond level 0
  · rw [if_pos hatt] at h
    cases h
    refine ⟨nodeRec (-1) 0 s, by rw [build_eq]; rfl, nodeRec_prune s level 0, ?_, ?_⟩
    · rw [nodeRec_prune s level 0, pruneStat_all]
    · rw [nodeRec_prune s level 0, pruneStat_critical]
  · rw [if_neg hatt] at h
    cases h

theorem c2_level_only_prunes_witness :
    ∃ ru, build (-1) c1Suite = some ru ∧
      nodeRec 1 0 c1Suite = pruneStat 1 0 ru ∧
      (nodeRec 1 0 c1Suite).all = ru.all ∧
      (nodeRec 1 0 c1Suite).critical = ru.critical :=
  c2_level_only_prunes 1 c1Suite (nodeRec 1 0 c1Suite) (by rw [build_eq]; rfl)

/-- Claim C3: for every suite tree and any level at which `build` returns a
root, the root's `critical` stat totals exactly the number of tests in the
whole tree marked critical (`critical == 'yes'`), and this never exceeds
the root's `all` total. -/
theorem c3_build_critical_total (level : Int) (s : Suite) (r : SuiteStatistics)
    (h : build level s = some r) :
    r.critical.total = countCrit s ∧ r.critical.total ≤ r.all.total := by
  rw [build_eq] at h
  by_cases hatt : attachCond level 0
  · rw [if_pos hatt] at h
    cases h
    refine ⟨(nodeRec_totals s level 0).2, ?_⟩
    rw [(nodeRec_totals s level 0).1, (nodeRec_totals s level 0).2]
    exact countCrit_le s
  · rw [if_neg hatt] at h
    cases h

theorem c3_build_critical_total_witness :
    (nodeRec (-1) 0 c1Suite).critical.total = countCrit c1Suite ∧
      (nodeRec (-1) 0 c1Suite).critical.total ≤ (nodeRec (-1) 0 c1Suite).all.total :=
  c3_build_critical_total (-1) c1Suite (nodeRec (-1) 0 c1Suite) (by rw [build_eq]; rfl)

/-- Claim C8: for every test and every `Stat`, one call to `Stat.add_test`
increments exactly one of the `passed`/`failed` counters by exactly one —
never both, never neither — so the stat's total increases by exactly one
per added test. -/
theorem c8_addTest_exactly_one (st : Stat) (t : TestCase) :
    (((st.addTest t).passed = st.passed + 1 ∧ (st.addTest t).failed = st.failed) ∨
      ((st.addTest t).passed = st.passed ∧ (st.addTest t).failed = st.failed + 1)) ∧
    (st.addTest t).total = st.total + 1 := by
  by_cases h : t.status = "PASS" <;>
    simp [Stat.addTest, Stat.total, h] <;> omega

/-- Claim C9: `Stat.add_test` classifies a test as passed exactly when its
status is the literal string `"PASS"`; every other status value — `"FAIL"`
as well as any unexpected or malformed string — increments the failed
counter.  There is no status validation: the operation is total. -/
theorem c9_addTest_pass_iff (st : Stat) (t : TestCase) :
    (st.addTest t = { st with passed := st.passed + 1 } ↔ t.status = "PASS") ∧
    (st.addTest t = { st with failed := st.failed + 1 } ↔ t.status ≠ "PASS") := by
  by_cases h : t.status = "PASS" <;>
    simp [Stat.addTest, h, Stat.mk.injEq]

/-- Claim C10: `Stat.fail_all` sets `passed` to 0 and `failed` to the
previous `passed + failed`, hence preserves the total and is idempotent. -/
theorem c10_failAll_total_idem (st : Stat) :
    (st.failAll).total = st.total ∧
    st.failAll.failAll = st.failAll ∧
    (st.failAll).passed = 0 ∧
    (st.failAll).failed = st.passed + st.failed := by
  refine ⟨?_, ?_, rfl, ?_⟩ <;> simp [Stat.failAll, Stat.total] <;> omega

theorem buildRe_nil_piece (ts : List (List Char)) (openP : Bool) :
    buildRe ([] :: ts) openP = buildRe ts openP := by
  simp [buildRe]

theorem buildRe_q_piece (ts : List (List Char)) (openP : Bool) :
    buildRe (['?'] :: ts) openP
      = (if openP then [] else [RegTok.lpar]) ++ RegTok.dot :: buildRe ts true := by
  simp [buildRe]

theorem buildRe_star_piece (ts : List (List Char)) (openP : Bool) :
    buildRe (['*'] :: ts) openP
      = (if openP then [RegTok.rpar] else []) ++ RegTok.star :: buildRe ts false := by
  simp [buildRe]

theorem buildRe_lit_piece (t : List Char) (ts : List (List Char)) (openP : Bool)
    (h1 : t ≠ []) (h2 : t ≠ ['?']) (h3 : t ≠ ['*']) :
    buildRe (t :: ts) openP
      = (if openP then [RegTok.rpar] else []) ++ RegTok.lit t :: buildRe ts false := by
  simp [buildRe, h1, h2, h3]

theorem splitPat_head : ∀ p : List Char,
    ∃ t ts, splitPat p = t :: ts ∧ ∀ c ∈ t, isDelim c = false := by
  intro p
  induction p with
  | nil => exact ⟨[], [], rfl, by simp⟩
  | cons c r ih =>
    by_cases hd : isDelim c
    · exact ⟨[], [c] :: splitPat r, by simp [splitPat, hd], by simp⟩
    · obtain ⟨t, ts, hsp, hlit⟩ := ih
      refine ⟨c :: t, ts, ?_, ?_⟩
      · simp [splitPat, hd, hsp]
      · intro x hx
        rcases List.mem_cons.mp hx with h | h
        · rw [h]
          cases hb : isDelim c
          · rfl
          · exact absurd hb hd
        · exact hlit x h

theorem buildRe_captures (p : List Char) :
    capturesAux (buildRe (splitPat p) false) none = some (groupsAux p 0) ∧
    ∀ n : Nat, capturesAux (buildRe (splitPat p) true) (some (n + 1))
      = some (groupsAux p (n + 1)) := by
  induction p with
  | nil =>
    refine ⟨by simp [splitPat, buildRe, capturesAux, groupsAux], fun n => ?_⟩
    simp [splitPat, buildRe, capturesAux, groupsAux]
  | cons c r ih =>
    obtain ⟨ih0, ih1⟩ := ih
    by_cases hq : c = '?'
    · subst hq
      have hsp : splitPat ('?' :: r) = [] :: ['?'] :: splitPat r := by
        simp [splitPat, isDelim]
      refine ⟨?_, fun n => ?_⟩
      · rw [hsp, buildRe_nil_piece, buildRe_q_piece]
        simp only [Bool.false_eq_true, if_false, List.cons_append, List.nil_append]
        rw [show capturesAux (RegTok.lpar :: RegTok.dot :: buildRe (splitPat r) true) none
            = capturesAux (buildRe (splitPat r) true) (some 1) from rfl]
        rw [ih1 0]
        simp [groupsAux]
      · rw [hsp, buildRe_nil_piece, buildRe_q_piece]
        simp only [if_true, List.nil_append]
        rw [show capturesAux (RegTok.dot :: buildRe (splitPat r) true) (some (n + 1))
            = capturesAux (buildRe (splitPat r) true) (some (n + 2)) from rfl]
        rw [ih1 (n + 1)]
        simp [groupsAux]
    · by_cases hs : c = '*'
      · subst hs
        have hsp : splitPat ('*' :: r) = [] :: ['*'] :: splitPat r := by
          simp [splitPat, isDelim]
        refine ⟨?_, fun n => ?_⟩
        · rw [hsp, buildRe_nil_piece, buildRe_star_piece]
          simp only [Bool.false_eq_true, if_false, List.nil_append]
          rw [show capturesAux (RegTok.star :: buildRe (splitPat r) false) none
              = (capturesAux (buildRe (splitPat r) false) none).map (.gstar :: ·) from rfl]
          rw [ih0]
          simp [groupsAux]
        · rw [hsp, buildRe_nil_piece, buildRe_star_piece]
          simp only [if_true, List.cons_append, List.nil_append]
          rw [show capturesAux
                (RegTok.rpar :: RegTok.star :: buildRe (splitPat r) false) (some (n + 1))
              = (capturesAux (RegTok.star :: buildRe (splitPat r) false) none).map
                  (.gdots (n + 1) :: ·) from rfl]
          rw [show capturesAux (RegTok.star :: buildRe (splitPat r) false) none
              = (capturesAux (buildRe (splitPat r) false) none).map (.gstar :: ·) from rfl]
          rw [ih0]
          simp [groupsAux]
      · obtain ⟨t, ts, hsp, hlit⟩ := splitPat_head r
        have hd : isDelim c = false := by
          simp [isDelim]
          exact ⟨fun h => hs (by simpa using h), fun h => hq (by simpa using h)⟩
        have hsp2 : splitPat (c :: r) = (c :: t) :: ts := by
          simp [splitPat, hd, hsp]
        have hA : capturesAux (buildRe ts false) none = some (groupsAux r 0) := by
          rw [hsp] at ih0
          by_cases ht : t = []
          · rw [ht, buildRe_nil_piece] at ih0
            exact ih0
          · have ht2 : t ≠ ['?'] := by
              intro h
              have := hlit '?' (by simp [h])
              simp [isDelim] at this
            have ht3 : t ≠ ['*'] := by
              intro h
              have := hlit '*' (by simp [h])
              simp [isDelim] at this
            rw [buildRe_lit_piece t ts false ht ht2 ht3] at ih0
            simpa [capturesAux] using ih0
        have hne1 : (c :: t) ≠ [] := by simp
        have hne2 : (c :: t) ≠ ['?'] := by
          intro h
          have : c = '?' := by simpa using congrArg (fun l => l.head?) h
          exact hq this
        have hne3 : (c :: t) ≠ ['*'] := by
          intro h
          have : c = '*' := by simpa using congrArg (fun l => l.head?) h
          exact hs this
        have hg : ∀ q : Nat, groupsAux (c :: r) q
            = (if q = 0 then [] else [GroupKind.gdots q]) ++ groupsAux r 0 := by
          intro q
          simp [groupsAux, hq, hs]
        refine ⟨?_, fun n => ?_⟩
        · rw [hsp2, buildRe_lit_piece _ _ _ hne1 hne2 hne3]
          simp only [Bool.false_eq_true, if_false, List.nil_append]
          rw [show capturesAux (RegTok.lit (c :: t) :: buildRe ts false) none
              = capturesAux (buildRe ts false) none from rfl]
          rw [hA, hg 0]
          simp
        · rw [hsp2, buildRe_lit_piece _ _ _ hne1 hne2 hne3]
          simp only [if_true, List.cons_append, List.nil_append]
          rw [show capturesAux
                (RegTok.rpar :: RegTok.lit (c :: t) :: buildRe ts false) (some (n + 1))
              = (capturesAux (RegTok.lit (c :: t) :: buildRe ts false) none).map
                  (.gdots (n + 1) :: ·) from rfl]
          rw [show capturesAux (RegTok.lit (c :: t) :: buildRe ts false) none
              = capturesAux (buildRe ts false) none from rfl]
          rw [hA, hg (n + 1)]
          simp

/-- Claim C5: for every wildcard pattern, `TagStatLink._get_match_regexp`
produces an anchored, case-insensitive matcher (anchoring and case folding
are part of the matching semantics `matchTok`) whose capture groups are
exactly one `(.*)` group per `*` and one dot group per maximal run of
consecutive `?`, in left-to-right source order, a group left open by a
trailing `?` being closed after the loop; in particular `"foo*bar"`
matches `"fooXYbar"` with the single captured group `"XY"`, and `"a?b"`
matches `"axb"` with the single captured group `"x"`. -/
theorem c5_match_regexp_groups :
    (∀ p : List Char, captures (getMatchRegexp p) = some (groupsSpec p)) ∧
    matchTok (getMatchRegexp ("foo*bar".data)) ("fooXYbar".data) = some ["XY".data] ∧
    matchTok (getMatchRegexp ("a?b".data)) ("axb".data) = some ["x".data] :=
  ⟨fun p => (buildRe_captures p).1, by decide, by decide⟩

theorem foldl_pair {α β : Type} (f : α → β → α) (l : List β) : ∀ (a b : α),
    l.foldl (fun p ig => (f p.1 ig, f p.2 ig)) (a, b) = (l.foldl f a, l.foldl f b) := by
  induction l with
  | nil => intro a b; rfl
  | cons x rest ih => intro a b; simp only [List.foldl_cons]; exact ih (f a x) (f b x)

theorem replaceGroups_eq (link title : String) (gs : List (List Char)) :
    replaceGroups link title gs = (substGroups link gs, substGroups title gs) := by
  unfold replaceGroups substGroups
  exact foldl_pair
    (fun (acc : String) (ig : Nat × List Char) =>
      strReplaceS acc ("%" ++ toString (ig.1 + 1)) (String.mk ig.2))
    gs.enum link title

theorem getLink_eq (l : TagStatLink) (tag : String) :
    (if l.matchesTag tag then l.getLink tag else none)
      = (matchTok l.tokens tag.data).map
          (fun gs => (substGroups l.link gs, substGroups l.title gs)) := by
  cases h : matchTok l.tokens tag.data with
  | none => simp [TagStatLink.matchesTag, h]
  | some gs => simp [TagStatLink.matchesTag, TagStatLink.getLink, h, replaceGroups_eq]

/-- Claim C6: for every tag, `TagStatInfo.get_links` returns, in rule
order, one (link, title) pair per link rule whose pattern matches the tag
(skipping non-matching rules), each captured wildcard group substituted
for its positional placeholder `%1`, `%2`, … in both templates, with the
underscores of the title template turned into spaces at construction,
before substitution; in particular the rule built from pattern `"*_*"`,
link `"http://x/%1/%2"` and title `"Tag_%2"` maps tag `"left_right"` to
link `"http://x/left/right"` and title `"Tag right"`. -/
theorem c6_get_links :
    (∀ (info : TagStatInfo) (tag : String), info.getLinks tag = getLinksSpec info tag) ∧
    (TagStatInfo.mk [] [TagStatLink.init "*_*" "http://x/%1/%2" "Tag_%2"]).getLinks
        "left_right" = [("http://x/left/right", "Tag right")] := by
  constructor
  · intro info tag
    unfold TagStatInfo.getLinks getLinksSpec
    exact List.filterMap_congr (fun l _ => getLink_eq l tag)
  · decide

theorem cmpCore_iff (c1 n1 b1 c2 n2 b2 : Bool) (o : Ordering) :
    (cmpCore c1 n1 b1 c2 n2 b2 o ≠ Ordering.gt)
      ↔ (kB c1 n1 b1 < kB c2 n2 b2 ∨ (kB c1 n1 b1 = kB c2 n2 b2 ∧ o ≠ Ordering.gt)) := by
  cases o <;> (revert c1 n1 b1 c2 n2 b2; decide)

theorem cmpChars_swap : ∀ as bs, cmpChars as bs = (cmpChars bs as).swap := by
  intro as
  induction as with
  | nil => intro bs; cases bs <;> rfl
  | cons a as ih =>
    intro bs
    cases bs with
    | nil => rfl
    | cons b bs =>
      simp only [cmpChars]
      rcases lt_trichotomy a b with h | h | h
      · simp [h, asymm h, Ordering.swap]
      · subst h
        simp [lt_irrefl, ih]
      · simp [h, asymm h, Ordering.swap]

theorem cmpChars_trans : ∀ as bs cs, cmpChars as bs ≠ Ordering.gt →
    cmpChars bs cs ≠ Ordering.gt → cmpChars as cs ≠ Ordering.gt := by
  intro as
  induction as with
  | nil =>
    intro bs cs h1 h2
    cases cs <;> simp [cmpChars]
  | cons a as ih =>
    intro bs cs h1 h2
    cases bs with
    | nil => simp [cmpChars] at h1
    | cons b bs =>
      cases cs with
      | nil => simp [cmpChars] at h2
      | cons c cs =>
        simp only [cmpChars] at h1 h2 ⊢
        rcases lt_trichotomy a b with h | h | h
        · rcases lt_trichotomy b c with g | g | g
          · simp [lt_trans h g]
          · subst g
            simp [h]
          · simp [asymm g, g] at h2
        · subst h
          simp only [lt_irrefl, if_false, reduceIte] at h1
          rcases lt_trichotomy a c with g | g | g
          · simp [g]
          · subst g
            simp only [lt_irrefl, if_false, reduceIte] at h2 ⊢
            exact ih bs cs h1 h2
          · simp [asymm g, g] at h2
        · simp [asymm h, h] at h1

theorem nameLe_total (a b : String) : nameLe a b ∨ nameLe b a := by
  unfold nameLe
  by_cases h : cmpChars a.data b.data = Ordering.gt
  · right
    rw [cmpChars_swap, h]
    simp [Ordering.swap]
  · left
    exact h

theorem tagLe_iff (a b : TagStat) :
    tagLe a b ↔ (kT a < kT b ∨ (kT a = kT b ∧ nameLe a.name b.name)) :=
  cmpCore_iff a.critical a.non_critical (a.combined != "") b.critical b.non_critical
    (b.combined != "") (nameCmp a.name b.name)

theorem tagLe_trans : ∀ a b c : TagStat, tagLe a b → tagLe b c → tagLe a c := by
  intro a b c h1 h2
  rw [tagLe_iff] at h1 h2 ⊢
  rcases h1 with h1 | ⟨e1, n1⟩ <;> rcases h2 with h2 | ⟨e2, n2⟩
  · left; omega
  · left; omega
  · left; omega
  · right
    exact ⟨by omega, cmpChars_trans _ _ _ n1 n2⟩

theorem tagLe_total : ∀ a b : TagStat, tagLe a b ∨ tagLe b a := by
  intro a b
  rw [tagLe_iff, tagLe_iff]
  rcases Nat.lt_trichotomy (kT a) (kT b) with h | h | h
  · left; left; exact h
  · rcases nameLe_total a.name b.name with hn | hn
    · left; right; exact ⟨h, hn⟩
    · right; right; exact ⟨h.symm, hn⟩
  · right; left; exact h

theorem kB_bucketB (c1 n1 b1 c2 n2 b2 : Bool)
    (h1 : ¬(c1 = true ∧ n1 = true) ∧ (b1 = true → c1 = false ∧ n1 = false))
    (h2 : ¬(c2 = true ∧ n2 = true) ∧ (b2 = true → c2 = false ∧ n2 = false)) :
    (kB c1 n1 b1 < kB c2 n2 b2 ↔ bucketB c1 n1 b1 < bucketB c2 n2 b2) ∧
    (kB c1 n1 b1 = kB c2 n2 b2 ↔ bucketB c1 n1 b1 = bucketB c2 n2 b2) := by
  revert h1 h2
  revert c1 n1 b1 c2 n2 b2
  decide

theorem tagLe_iff_bucketLe (a b : TagStat) (ha : wfTagStat a) (hb : wfTagStat b) :
    tagLe a b ↔ bucketLe a b := by
  obtain ⟨hk1, hk2⟩ := kB_bucketB a.critical a.non_critical (a.combined != "")
      b.critical b.non_critical (b.combined != "") ha hb
  rw [tagLe_iff]
  unfold bucketLe bucket kT
  rw [hk1, hk2]

/-- Counterexample to C7 as universally stated: in a collection holding a
stat flagged both critical and non-critical (which the model does not
rule out — the classifier is external) next to a plainly critical stat,
iteration is *not* bucket-sorted with names ascending inside the critical
bucket: `__cmp__` orders the doubly-flagged `"b"` before the critical
`"a"`. -/
theorem c7_iter_sorted_counterexample :
    ¬ List.Sorted bucketLe (TagStatistics.iterStats c7Bad) := by decide

/-- Claim C7 (amended): for every collection of category-well-formed
`TagStat`s — at most one of the critical/non-critical flags set, combined
stats carrying neither, as holds for all stats the aggregator creates
when the classifier's predicates are exclusive — iterating
`TagStatistics` yields a permutation of the stored stats sorted with all
critical tags first, then non-critical, then combined, then plain, each
bucket ascending by name. -/
theorem c7_iter_sorted (ts : TagStatistics)
    (hwf : ∀ s ∈ ts.stats.map Prod.snd, wfTagStat s) :
    List.Sorted bucketLe ts.iterStats ∧ ts.iterStats.Perm (ts.stats.map Prod.snd) := by
  unfold TagStatistics.iterStats sortStats
  haveI : IsTotal TagStat tagLe := ⟨tagLe_total⟩
  haveI : IsTrans TagStat tagLe := ⟨tagLe_trans⟩
  have hperm := List.perm_insertionSort tagLe (ts.stats.map Prod.snd)
  refine ⟨?_, hperm⟩
  have hsorted := List.sorted_insertionSort tagLe (ts.stats.map Prod.snd)
  exact hsorted.imp_of_mem (fun ha hb hr =>
    (tagLe_iff_bucketLe _ _ (hwf _ (hperm.mem_iff.mp ha))
      (hwf _ (hperm.mem_iff.mp hb))).mp hr)

theorem c7_iter_sorted_witness :
    List.Sorted bucketLe (TagStatistics.iterStats c7Good) ∧
      (TagStatistics.iterStats c7Good).Perm (c7Good.stats.map Prod.snd) :=
  c7_iter_sorted c7Good (by decide)

theorem tagStatAddTest_total (st : TagStat) (t : TestCase) :
    (st.addTest t).total = st.total + 1 := Stat.addTest_total st.toStat t

theorem foldl_addTagsStep_id (ts : TagStatistics) (t : TestCase) (crit : Criticality) :
    ∀ (l : List String) (m : List (String × TagStat)),
      (∀ tag ∈ l, ts.isIncluded tag = false) →
      l.foldl (addTagsStep ts t crit) m = m := by
  intro l
  induction l with
  | nil => intro m _; rfl
  | cons tag rest ih =>
    intro m h
    rw [List.foldl_cons]
    have hstep : addTagsStep ts t crit m tag = m := by
      unfold addTagsStep
      rw [h tag (List.mem_cons_self tag rest)]
      rfl
    rw [hstep]
    exact ih m (fun x hx => h x (List.mem_cons_of_mem _ hx))

theorem addTags_excluded (ts : TagStatistics) (t : TestCase) (crit : Criticality)
    (h : ∀ tag ∈ t.tags, ts.isIncluded tag = false) :
    ts.addTagsStatistics t crit = ts := by
  unfold TagStatistics.addTagsStatistics
  rw [foldl_addTagsStep_id ts t crit t.tags ts.stats h]

theorem ndFind_ndUpdate_eq : ∀ (m : List (String × TagStat)) (k k2 : String)
    (f : TagStat → TagStat), normTag k = normTag k2 →
    ndFind (ndUpdate m k f) k2 = (ndFind m k2).map f := by
  intro m
  induction m with
  | nil => intro k k2 f _; rfl
  | cons e rest ih =>
    intro k k2 f h
    by_cases he : e.1 == normTag k
    · unfold ndUpdate ndFind
      rw [if_pos he]
      have he2 : (e.1 == normTag k2) = true := by
        rw [← h]; exact he
      simp [List.find?, he2]
    · unfold ndUpdate ndFind
      rw [if_neg he]
      have he2 : (e.1 == normTag k2) = false := by
        rw [← h]
        exact Bool.eq_false_iff.mpr he
      simp only [List.find?, he2]
      exact ih k k2 f h

theorem ndFind_ndUpdate_ne : ∀ (m : List (String × TagStat)) (k k2 : String)
    (f : TagStat → TagStat), normTag k ≠ normTag k2 →
    ndFind (ndUpdate m k f) k2 = ndFind m k2 := by
  intro m
  induction m with
  | nil => intro k k2 f _; rfl
  | cons e rest ih =>
    intro k k2 f h
    by_cases he : e.1 == normTag k
    · unfold ndUpdate ndFind
      rw [if_pos he]
      have he2 : (e.1 == normTag k2) = false := by
        have : e.1 = normTag k := by simpa using he
        rw [this]
        simpa using h
      simp [List.find?, he2]
    · unfold ndUpdate ndFind
      rw [if_neg he]
      simp only [List.find?]
      cases hh : (e.1 == normTag k2)
      · exact ih k k2 f h
      · rfl

theorem totalAt_update_addTest (m : List (String × TagStat)) (k k2 : String)
    (t : TestCase) (hk : ndHas m k2 = true) (h : normTag k = normTag k2) :
    totalAt (ndUpdate m k (fun st => st.addTest t)) k2 = totalAt m k2 + 1 := by
  unfold totalAt
  rw [ndFind_ndUpdate_eq m k k2 _ h]
  unfold ndHas at hk
  cases hf : ndFind m k2 with
  | none => rw [hf] at hk; simp at hk
  | some st => simp [tagStatAddTest_total]

theorem totalAt_update_ne (m : List (String × TagStat)) (k k2 : String)
    (f : TagStat → TagStat) (h : normTag k ≠ normTag k2) :
    totalAt (ndUpdate m k f) k2 = totalAt m k2 := by
  unfold totalAt
  rw [ndFind_ndUpdate_ne m k k2 f h]

theorem ndHas_update (m : List (String × TagStat)) (k k2 : String)
    (f : TagStat → TagStat) : ndHas (ndUpdate m k f) k2 = ndHas m k2 := by
  unfold ndHas
  by_cases h : normTag k = normTag k2
  · rw [ndFind_ndUpdate_eq m k k2 f h]
    cases ndFind m k2 <;> rfl
  · rw [ndFind_ndUpdate_ne m k k2 f h]

theorem foldl_combined_total (t : TestCase) : ∀ (cs : List CombinedTag)
    (m : List (String × TagStat)) (K : String), ndHas m K = true →
    totalAt (cs.foldl (addCombinedStep t) m) K
      = totalAt m K
        + cs.countP (fun c => (normTag c.name == normTag K) && c.matchTags t.tags) := by
  intro cs
  induction cs with
  | nil => intro m K _; simp
  | cons c rest ih =>
    intro m K hk
    rw [List.foldl_cons, List.countP_cons]
    by_cases hm : c.matchTags t.tags
    · have hstep : addCombinedStep t m c = ndUpdate m c.name (fun st => st.addTest t) := by
        unfold addCombinedStep
        rw [if_pos hm]
      rw [hstep]
      by_cases hn : normTag c.name = normTag K
      · rw [ih _ K (by rw [ndHas_update]; exact hk)]
        rw [totalAt_update_addTest m c.name K t hk hn]
        have hp : ((normTag c.name == normTag K) && c.matchTags t.tags) = true := by
          rw [hn, hm]
          simp
        rw [hp]
        simp only [reduceIte]
        omega
      · rw [ih _ K (by rw [ndHas_update]; exact hk)]
        rw [totalAt_update_ne m c.name K _ hn]
        have hp : ((normTag c.name == normTag K) && c.matchTags t.tags) = false := by
          have : (normTag c.name == normTag K) = false := Bool.eq_false_iff.mpr
            (fun hb => hn (by simpa using hb))
          simp [this]
        rw [hp, if_neg Bool.false_ne_true]
        omega
    · have hstep : addCombinedStep t m c = m := by
        unfold addCombinedStep
        rw [if_neg hm]
      rw [hstep, ih m K hk]
      have hp : ((normTag c.name == normTag K) && c.matchTags t.tags) = false := by
        have : c.matchTags t.tags = false := Bool.eq_false_iff.mpr hm
        simp [this]
      rw [hp, if_neg Bool.false_ne_true]
      omega

theorem countP_comb_one (tags : List String) : ∀ (cs : List CombinedTag)
    (comb : CombinedTag), comb ∈ cs →
    (cs.map (fun c => normTag c.name)).Nodup →
    comb.matchTags tags = true →
    cs.countP (fun c => (normTag c.name == normTag comb.name) && c.matchTags tags) = 1 := by
  intro cs
  induction cs with
  | nil => intro comb hmem; cases hmem
  | cons c rest ih =>
    intro comb hmem hnd hmatch
    rw [List.map_cons, List.nodup_cons] at hnd
    obtain ⟨hnotin, hnd2⟩ := hnd
    rw [List.countP_cons]
    rcases List.mem_cons.mp hmem with he | he
    · subst he
      have hp : ((normTag comb.name == normTag comb.name) && comb.matchTags tags) = true := by
        simp [hmatch]
      rw [hp]
      have hz : rest.countP
          (fun x => (normTag x.name == normTag comb.name) && x.matchTags tags) = 0 := by
        rw [List.countP_eq_zero]
        intro x hx hpx
        apply hnotin
        have : normTag x.name = normTag comb.name := by
          have := (Bool.and_eq_true _ _).mp hpx
          simpa using this.1
        rw [← this]
        exact List.mem_map_of_mem _ hx
      rw [hz]
      simp
    · have hp : ((normTag c.name == normTag comb.name) && c.matchTags tags) = false := by
        have hne : (normTag c.name == normTag comb.name) = false := by
          apply Bool.eq_false_iff.mpr
          intro hb
          apply hnotin
          have : normTag c.name = normTag comb.name := by simpa using hb
          rw [this]
          exact List.mem_map_of_mem _ he
        simp [hne]
      rw [hp]
      simpa using ih comb he hnd2 hmatch

/-- Claim C4: whenever a combined-tag definition's pattern matches a
test's full tag set, `TagStatistics.add_test` increments that combined
tag's stat, independently of the include/exclude patterns — here stated
in the sharpest scenario, with every literal tag of the test rejected by
the filtering applied to literal tag statistics.  (The combined name is
seeded in the map by construction, and combined display names are assumed
distinct up to normalisation, as `_create_combined` effectively makes them
by overwriting duplicate keys.) -/
theorem c4_combined_bypasses_filter (ts : TagStatistics) (t : TestCase)
    (crit : Criticality) (comb : CombinedTag) (hmem : comb ∈ ts.combine)
    (hnodup : (ts.combine.map (fun c => normTag c.name)).Nodup)
    (hkey : ndHas ts.stats comb.name = true)
    (hmatch : comb.matchTags t.tags = true)
    (hexcl : ∀ tag ∈ t.tags, ts.isIncluded tag = false) :
    totalAt ((ts.addTest t crit).stats) comb.name
      = totalAt ts.stats comb.name + 1 := by
  unfold TagStatistics.addTest
  rw [addTags_excluded ts t crit hexcl]
  unfold TagStatistics.addCombinedStatistics
  rw [foldl_combined_total t ts.combine ts.stats comb.name hkey]
  rw [countP_comb_one t.tags ts.combine comb hmem hnodup hmatch]

theorem c4_combined_bypasses_filter_witness :
    totalAt ((c4Stats.addTest c4Test c4Crit).stats) c4Comb.name
      = totalAt c4Stats.stats c4Comb.name + 1 :=
  c4_combined_bypasses_filter c4Stats c4Test c4Crit c4Comb
    (List.Mem.head _) (by decide) (by decide) (by decide) (by decide)

end Robot
